import Mathlib

/-!
Verification of the hand-drawn chart rendering engines of
`handwritten-graph-ts`: the seeded pseudo-random generator, the
natural-variation derivation, the pattern cache (`ScribbleFillUtils`),
the path sample cache (`HandDrawnUtils`), and the color adjustment
utility.

Modelling conventions:
* JavaScript `Map` objects are modelled as association lists in insertion
  order (`mapGet`, `mapSet`, `mapDelete`); `Map.set` on an existing key
  replaces the value in place, on a fresh key it appends.
* JavaScript numbers are modelled as exact rationals (`ℚ`); 32-bit
  integer coercions (`| 0`, `&`, `<<`) are modelled explicitly on `ℤ`.
* The SVG document is modelled as a list of `(defs-node identity,
  element id)` pairs; `querySelector('#id')` is membership, `remove()` is
  erasure.
* `Date.now()` and the `Date.now()`-plus-random-suffix id generation are
  modelled by a fixed timestamp in the engine state and a fresh-name
  counter; the only property the source relies on is that generated ids
  are fresh.
-/

/-- First-match lookup in an association list, the model of
`Map.prototype.get`. -/
def mapGet {α : Type} (m : List (String × α)) (k : String) : Option α :=
  match m with
  | [] => none
  | (k1, v) :: rest => if k1 = k then some v else mapGet rest k

/-- The model of `Map.prototype.set`: replaces the value of an existing
key in place (preserving its position in insertion order), appends a
fresh key at the end. -/
def mapSet {α : Type} (m : List (String × α)) (k : String) (v : α) :
    List (String × α) :=
  match m with
  | [] => [(k, v)]
  | (k1, v1) :: rest =>
    if k1 = k then (k1, v) :: rest else (k1, v1) :: mapSet rest k v

/-- The model of `Map.prototype.delete` (on maps with unique keys this
removes exactly the binding of `k`). -/
def mapDelete {α : Type} (m : List (String × α)) (k : String) :
    List (String × α) :=
  m.filter (fun p => p.1 != k)

theorem mapGet_eq_none_iff {α : Type} (m : List (String × α)) (k : String) :
    mapGet m k = none ↔ k ∉ m.map Prod.fst := by
  induction m with
  | nil => simp [mapGet]
  | cons p rest ih =>
    obtain ⟨k1, v⟩ := p
    by_cases h : k1 = k
    · subst h; simp [mapGet]
    · simp [mapGet, h, ih, Ne.symm h]

theorem mapSet_length_le {α : Type} (m : List (String × α)) (k : String) (v : α) :
    (mapSet m k v).length ≤ m.length + 1 := by
  induction m with
  | nil => simp [mapSet]
  | cons p rest ih =>
    obtain ⟨k1, v1⟩ := p
    by_cases h : k1 = k <;> simp [mapSet, h] <;> omega

theorem mapSet_length_of_mem {α : Type} (m : List (String × α)) (k : String)
    (v : α) (h : (mapGet m k).isSome) : (mapSet m k v).length = m.length := by
  induction m with
  | nil => simp [mapGet] at h
  | cons p rest ih =>
    obtain ⟨k1, v1⟩ := p
    by_cases hk : k1 = k
    · simp [mapSet, hk]
    · simp [mapGet, hk] at h
      simp [mapSet, hk, ih h]

theorem mapSet_eq_append_of_fresh {α : Type} (m : List (String × α))
    (k : String) (v : α) (h : mapGet m k = none) :
    mapSet m k v = m ++ [(k, v)] := by
  induction m with
  | nil => simp [mapSet]
  | cons p rest ih =>
    obtain ⟨k1, v1⟩ := p
    by_cases hk : k1 = k
    · simp [mapGet, hk] at h
    · simp [mapGet, hk] at h
      simp [mapSet, hk, ih h]

theorem mapGet_mapSet_self {α : Type} (m : List (String × α)) (k : String)
    (v : α) : mapGet (mapSet m k v) k = some v := by
  induction m with
  | nil => simp [mapSet, mapGet]
  | cons p rest ih =>
    obtain ⟨k1, v1⟩ := p
    by_cases hk : k1 = k <;> simp [mapSet, mapGet, hk, ih]

theorem mapDelete_length_le {α : Type} (m : List (String × α)) (k : String) :
    (mapDelete m k).length ≤ m.length :=
  List.length_filter_le _ m

theorem mem_of_mem_mapDelete {α : Type} {m : List (String × α)} {k : String}
    {p : String × α} (h : p ∈ mapDelete m k) : p ∈ m :=
  List.mem_of_mem_filter h

theorem mapGet_mapDelete_self {α : Type} (m : List (String × α)) (k : String) :
    mapGet (mapDelete m k) k = none := by
  rw [mapGet_eq_none_iff]
  intro hmem
  simp only [mapDelete, List.map_filter] at hmem
  obtain ⟨p, hp, rfl⟩ := List.mem_map.mp hmem
  have := List.of_mem_filter hp
  simp at this

/-! ### The seeded pseudo-random generator (`ScribbleFillUtils.seededRandom`)

```ts
private static seededRandom(seed: string): () => number {
    let hash = 0;
    for (let i = 0; i < seed.length; i++) {
        const char = seed.charCodeAt(i);
        hash = ((hash << 5) - hash) + char;
        hash = hash & hash; // Convert to 32-bit integer
    }
    return function() {
        hash = (hash * 9301 + 49297) % 233280;
        return hash / 233280;
    };
}
```
-/

namespace ScribbleFillUtils

/-- JavaScript `ToInt32`: wrap an integer into `[-2^31, 2^31)`.  This is
what `x & x` (and the implicit coercion of `<<`) performs on an
integer-valued number. -/
def toInt32 (x : ℤ) : ℤ := (x + 2 ^ 31) % 2 ^ 32 - 2 ^ 31

/-- One iteration of the seed-hash loop: `hash = ((hash << 5) - hash) +
char; hash = hash & hash`.  `hash << 5` first wraps `hash * 32` to 32
bits, the subtraction and addition are exact, and the final `& hash`
wraps again. -/
def hashStep (h : ℤ) (c : ℕ) : ℤ := toInt32 (toInt32 (h * 32) - h + c)

/-- The string-hash-to-integer-seed of `seededRandom` (characters are
taken as their code units; all seeds used by the source are ASCII, where
code unit and code point coincide). -/
def hashString (s : String) : ℤ :=
  s.toList.foldl (fun h ch => hashStep h ch.toNat) 0

/-- JavaScript `%` on integer-valued numbers: remainder with the sign of
the dividend. -/
def jsRemInt (a n : ℤ) : ℤ := if 0 ≤ a then a % n else -((-a) % n)

/-- One update of the generator state: `hash = (hash * 9301 + 49297) %
233280`. -/
def lcgStep (h : ℤ) : ℤ := jsRemInt (h * 9301 + 49297) 233280

/-- The generator state after `n` updates, starting from state `h`. -/
def lcgIter (h : ℤ) : ℕ → ℤ
  | 0 => h
  | n + 1 => lcgStep (lcgIter h n)

/-- The `n`-th value (0-indexed) produced by the closure returned by
`seededRandom(seed)`: each call first updates the state and then returns
`hash / 233280`. -/
def seededRandom (seed : String) (n : ℕ) : ℚ :=
  ((lcgIter (hashString seed) (n + 1) : ℤ) : ℚ) / 233280

theorem lcgStep_lt (h : ℤ) : lcgStep h < 233280 := by
  unfold lcgStep jsRemInt
  split
  · exact Int.emod_lt_of_pos _ (by norm_num)
  · have : 0 ≤ -(h * 9301 + 49297) % 233280 :=
      Int.emod_nonneg _ (by norm_num)
    omega

theorem neg_lt_lcgStep (h : ℤ) : -233280 < lcgStep h := by
  unfold lcgStep jsRemInt
  split
  · have : 0 ≤ (h * 9301 + 49297) % 233280 :=
      Int.emod_nonneg _ (by norm_num)
    omega
  · have : -(h * 9301 + 49297) % 233280 < 233280 :=
      Int.emod_lt_of_pos _ (by norm_num)
    omega

theorem lcgStep_nonneg {h : ℤ} (hh : 0 ≤ h) : 0 ≤ lcgStep h := by
  unfold lcgStep jsRemInt
  have : 0 ≤ h * 9301 + 49297 := by positivity
  rw [if_pos this]
  exact Int.emod_nonneg _ (by norm_num)

theorem lcgIter_nonneg {h : ℤ} (hh : 0 ≤ h) (n : ℕ) : 0 ≤ lcgIter h n := by
  induction n with
  | zero => exact hh
  | succ n ih => exact lcgStep_nonneg ih

theorem seededRandom_mem_Ioo (seed : String) (n : ℕ) :
    -1 < seededRandom seed n ∧ seededRandom seed n < 1 := by
  unfold seededRandom
  rw [lcgIter]
  set x := lcgStep (lcgIter (hashString seed) n) with hx
  have h1 : x < 233280 := lcgStep_lt _
  have h2 : -233280 < x := neg_lt_lcgStep _
  constructor
  · rw [neg_lt, ← neg_div, div_lt_one (by norm_num)]
    push_cast
    exact_mod_cast by exact_mod_cast (by omega : (-x : ℤ) < 233280)
  · rw [div_lt_one (by norm_num)]
    exact_mod_cast h1

theorem seededRandom_nonneg_of_hash_nonneg {seed : String}
    (h : 0 ≤ hashString seed) (n : ℕ) : 0 ≤ seededRandom seed n := by
  unfold seededRandom
  have : (0 : ℤ) ≤ lcgIter (hashString seed) (n + 1) := lcgIter_nonneg h _
  positivity

theorem seededRandom_congr {s t : String} (h : hashString s = hashString t)
    (n : ℕ) : seededRandom s n = seededRandom t n := by
  unfold seededRandom
  rw [h]

/-! ### Natural variation derivation (`generateNaturalVariation`) -/

/-- Truncation toward zero, the `n` of JavaScript's float remainder. -/
def ratTrunc (q : ℚ) : ℤ := if 0 ≤ q then q.floor else -((-q).floor)

/-- JavaScript `%` on (exact) rational values: `a - b * trunc(a / b)`. -/
def jsRemQ (a b : ℚ) : ℚ := a - b * (ratTrunc (a / b) : ℚ)

/-- The `(direction, density, strokeVariation, opacityVariation)` tuple. -/
structure Variation where
  direction : ℚ
  density : ℚ
  strokeVariation : ℚ
  opacityVariation : ℚ
deriving DecidableEq, Repr

/-- `generateNaturalVariation(color, index, total)`: seeds the generator
with `` `${color}-${index}-${total}` `` and draws four values in order
(direction jitter, density variation, stroke variation, opacity
variation), exactly as the source does. -/
def generateNaturalVariation (color : String) (index total : ℕ) : Variation :=
  let seed := color ++ "-" ++ toString index ++ "-" ++ toString total
  let r1 := seededRandom seed 0
  let r2 := seededRandom seed 1
  let r3 := seededRandom seed 2
  let r4 := seededRandom seed 3
  let baseDirection : ℚ := ((index : ℚ) / (total : ℚ)) * 180
  let directionJitter : ℚ := (r1 - 1/2) * 30
  let direction := jsRemQ (baseDirection + directionJitter + 360) 180
  let baseDensity : ℚ := 12 + ((index % 3 : ℕ) : ℚ) * 2
  let densityVariation : ℤ := (r2 * 4 - 2).floor
  let density := max 10 (min 20 (baseDensity + (densityVariation : ℚ)))
  let strokeVariation := 1/2 + r3 * 1
  let opacityVariation := 7/10 + r4 * (3/10)
  ⟨direction, density, strokeVariation, opacityVariation⟩

/-! ### Cache keys (`PatternCacheKey`, `generateCacheKey`) -/

/-- JavaScript `Math.round`: nearest integer, ties toward `+∞`. -/
def jsRound (q : ℚ) : ℤ := (q + 1/2).floor

/-- Stand-in for JavaScript's number-to-string conversion inside template
literals.  JavaScript prints the shortest decimal that round-trips; we
print `num` or `num/den`.  Both are injective on the rational values
involved, which is all the cache-key construction relies on. -/
def ratStr (q : ℚ) : String :=
  if q.den = 1 then toString q.num else toString q.num ++ "/" ++ toString q.den

/-- `Number.prototype.toFixed(2)`: round to two decimals (ties toward the
larger candidate) and print with exactly two fraction digits. -/
def toFixed2 (q : ℚ) : String :=
  let n : ℤ := (q * 100 + 1/2).floor
  let a : ℕ := n.natAbs
  let frac : ℕ := a % 100
  (if n < 0 then "-" else "") ++ toString (a / 100) ++ "." ++
    (if frac < 10 then "0" ++ toString frac else toString frac)

/-- The composite pattern cache key (`interface PatternCacheKey`). -/
structure PatternCacheKey where
  type : String
  color : String
  direction : Option ℚ
  density : Option ℚ
  width : Option ℚ
  height : Option ℚ
  seed : Option String
  variation : Option String
deriving DecidableEq, Repr

/-- `generateCacheKey`: joins the present components with `|`, rounding
the direction to one decimal first. -/
def generateCacheKey (key : PatternCacheKey) : String :=
  let parts := [key.type, key.color]
  let parts := match key.direction with
    | some v => parts ++ ["dir:" ++ ratStr ((jsRound (v * 10) : ℚ) / 10)]
    | none => parts
  let parts := match key.density with
    | some v => parts ++ ["dens:" ++ ratStr v]
    | none => parts
  let parts := match key.width with
    | some v => parts ++ ["w:" ++ ratStr v]
    | none => parts
  let parts := match key.height with
    | some v => parts ++ ["h:" ++ ratStr v]
    | none => parts
  let parts := match key.seed with
    | some v => parts ++ ["seed:" ++ v]
    | none => parts
  let parts := match key.variation with
    | some v => parts ++ ["var:" ++ v]
    | none => parts
  String.intercalate "|" parts

/-! ### The pattern cache and pattern-set generation -/

/-- The SVG document model: the set (in document order) of pattern/filter
nodes, as pairs `(identity of the hosting defs element, element id)`. -/
abbrev Dom := List (ℕ × String)

/-- `interface PatternCacheEntry` — `defsElement` is the identity of the
hosting defs node. -/
structure PatternCacheEntry where
  patternUrl : String
  patternId : String
  defsElement : ℕ
  lastUsed : ℕ
deriving DecidableEq, Repr

abbrev PatternCache := List (String × PatternCacheEntry)

/-- The module-level mutable state of `ScribbleFillUtils` together with
the document and the ambient clock/fresh-id supply. -/
structure EngineState where
  cache : PatternCache
  dom : Dom
  now : ℕ
  fresh : ℕ
deriving DecidableEq, Repr

/-- A `createPatternFn` closure: it may generate ids and append pattern
nodes to the document but has no access to the pattern cache (the source
closures only touch the defs selection). -/
abbrev CreateFn := ℕ → Dom → String × ℕ × Dom

def maxCacheSize : ℕ := 50

/-- Five minutes, in milliseconds. -/
def cacheExpirationTime : ℕ := 5 * 60 * 1000

/-- The `expiredKeys.forEach` loop of `cleanupCache`: for each collected
key, remove the entry's pattern node from its hosting defs element and
delete the cache binding. -/
def sweepExpired : List String → PatternCache → Dom → PatternCache × Dom
  | [], c, dm => (c, dm)
  | k :: ks, c, dm =>
    match mapGet c k with
    | some e =>
      sweepExpired ks (mapDelete c k) (dm.erase (e.defsElement, e.patternId))
    | none => sweepExpired ks c dm

/-- The `toRemove.forEach` loop of `cleanupCache`. -/
def evictEntries :
    List (String × PatternCacheEntry) → PatternCache → Dom → PatternCache × Dom
  | [], c, dm => (c, dm)
  | (k, e) :: rest, c, dm =>
    evictEntries rest (mapDelete c k) (dm.erase (e.defsElement, e.patternId))

/-- The keys collected by the first loop of `cleanupCache`: entries idle
longer than the expiry window (`now - entry.lastUsed >
cacheExpirationTime`; as in JavaScript, a `lastUsed` in the future
compares as not expired, which truncated subtraction models). -/
def expiredKeysOf (st : EngineState) : List String :=
  (st.cache.filter
    (fun p => cacheExpirationTime < st.now - p.2.lastUsed)).map Prod.fst

/-- The second half of `cleanupCache`: if the cache still holds more than
`maxCacheSize` entries, sort by `lastUsed` ascending (JavaScript's
`Array.prototype.sort` is stable, as is `mergeSort`) and evict all but
the newest `maxCacheSize`. -/
def cleanupCapped (st : EngineState) (swept : PatternCache × Dom) :
    EngineState :=
  if maxCacheSize < swept.1.length then
    let sorted := swept.1.mergeSort (fun a b => a.2.lastUsed ≤ b.2.lastUsed)
    let removed := evictEntries (sorted.take (sorted.length - maxCacheSize))
      swept.1 swept.2
    { st with cache := removed.1, dom := removed.2 }
  else
    { st with cache := swept.1, dom := swept.2 }

/-- `cleanupCache`: purge expired entries, then trim to the cap. -/
def cleanupCache (st : EngineState) : EngineState :=
  cleanupCapped st (sweepExpired (expiredKeysOf st) st.cache st.dom)

/-- `patternUrl.replace('url(#', '').replace(')', '')` (on the tokens the
engine produces each pattern occurs once, so replace-first and
replace-all agree). -/
def stripUrl (u : String) : String := (u.replace "url(#" "").replace ")" ""

/-- The shared tail of `getCachedPattern`: synthesize a fresh pattern,
record it under `key`, and run a cleanup pass when occupancy exceeds 80%
of the cap. -/
def createAndInsert (key : String) (d : ℕ) (createPatternFn : CreateFn)
    (st : EngineState) : String × EngineState :=
  let r := createPatternFn st.fresh st.dom
  let patternUrl := r.1
  let patternId := stripUrl patternUrl
  let st1 : EngineState :=
    { st with
      fresh := r.2.1
      dom := r.2.2
      cache := mapSet st.cache key ⟨patternUrl, patternId, d, st.now⟩ }
  if (maxCacheSize : ℚ) * (8 / 10) < (st1.cache.length : ℚ) then
    (patternUrl, cleanupCache st1)
  else
    (patternUrl, st1)

/-- `getCachedPattern(cacheKey, defs, createPatternFn)`. -/
def getCachedPattern (cacheKey : PatternCacheKey) (defsNode : Option ℕ)
    (createPatternFn : CreateFn) (st : EngineState) : String × EngineState :=
  let key := generateCacheKey cacheKey
  match defsNode with
  | none =>
    let r := createPatternFn st.fresh st.dom
    (r.1, { st with fresh := r.2.1, dom := r.2.2 })
  | some d =>
    match mapGet st.cache key with
    | some cached =>
      if cached.defsElement = d then
        if (d, cached.patternId) ∈ st.dom then
          (cached.patternUrl,
            { st with
              cache := mapSet st.cache key { cached with lastUsed := st.now } })
        else
          createAndInsert key d createPatternFn
            { st with cache := mapDelete st.cache key }
      else createAndInsert key d createPatternFn st
    | none => createAndInsert key d createPatternFn st

/-- The `createPatternFn` closure built by `createScribblePatternSet`: it
calls `createEnhancedDirectionalScribblePattern`, which (as far as the
document structure goes) replaces the per-pattern paper-texture filter,
appends the pattern node under the given id, ensures the shared
`watercolor-soft-blur` filter exists, and returns `` `url(#${id})` ``.
The `` `scribble-pattern-${Date.now()}-${...}` `` id is modelled by the
fresh-name supply; the painted contents of the pattern (blobs, scribble
lines) do not affect the cache or the returned token and are elided.
With a null defs selection, all d3 appends are no-ops but the token is
still returned. -/
def scribbleCreateFn (defsNode : Option ℕ) : CreateFn := fun fresh dom =>
  let id := "scribble-pattern-" ++ toString fresh
  match defsNode with
  | none => ("url(#" ++ id ++ ")", fresh + 1, dom)
  | some d =>
    let fid := "paper-texture-" ++ id
    let dom1 := (dom.erase (d, fid)) ++ [(d, fid), (d, id)]
    let dom2 :=
      if (d, "watercolor-soft-blur") ∈ dom1 then dom1
      else dom1 ++ [(d, "watercolor-soft-blur")]
    ("url(#" ++ id ++ ")", fresh + 1, dom2)

/-- The `createPatternFn` closure built by `createOilPaintPatternSet`:
`createEnhancedOilPaintPattern` appends one pattern node under the given
(nonempty) id and returns `` `url(#${patternId})` ``; its painted layers
are elided as above. -/
def oilCreateFn (defsNode : Option ℕ) : CreateFn := fun fresh dom =>
  let id := "oil-paint-" ++ toString fresh
  match defsNode with
  | none => ("url(#" ++ id ++ ")", fresh + 1, dom)
  | some d => ("url(#" ++ id ++ ")", fresh + 1, dom ++ [(d, id)])

/-- `colors.map((color, index) => ...)` with the module-level state
threaded through the per-color closure in input order. -/
def runPatternSet (step : EngineState → String → ℕ → String × EngineState) :
    List String → ℕ → EngineState → List String × EngineState
  | [], _, st => ([], st)
  | c :: cs, i, st =>
    let r := step st c i
    let rest := runPatternSet step cs (i + 1) r.2
    (r.1 :: rest.1, rest.2)

/-- The per-color body of `createScribblePatternSet`: derive the natural
variation, build the cache key (tile 150×150, seed
`` `${color}-${index}-scribble` ``, variation fingerprint from the
stroke/opacity variations via `toFixed(2)`), and request the pattern
through the cache. -/
def scribbleStep (defsNode : Option ℕ) (total : ℕ) (st : EngineState)
    (color : String) (index : ℕ) : String × EngineState :=
  let variation := generateNaturalVariation color index total
  let seed := color ++ "-" ++ toString index ++ "-scribble"
  let cacheKey : PatternCacheKey :=
    ⟨"scribble", color, some variation.direction, some variation.density,
      some 150, some 150, some seed,
      some (toFixed2 variation.strokeVariation ++ "-" ++
        toFixed2 variation.opacityVariation)⟩
  getCachedPattern cacheKey defsNode (scribbleCreateFn defsNode) st

/-- The per-color body of `createOilPaintPatternSet` (tile 120×120, seed
`` `${color}-${index}-oil` ``, variation fingerprint
`` `texture-${variation.density}` ``). -/
def oilStep (defsNode : Option ℕ) (total : ℕ) (st : EngineState)
    (color : String) (index : ℕ) : String × EngineState :=
  let seed := color ++ "-" ++ toString index ++ "-oil"
  let variation := generateNaturalVariation color index total
  let cacheKey : PatternCacheKey :=
    ⟨"oilpaint", color, none, none, some 120, some 120, some seed,
      some ("texture-" ++ ratStr variation.density)⟩
  getCachedPattern cacheKey defsNode (oilCreateFn defsNode) st

/-- `createScribblePatternSet(defs, colors)`: substitutes `['#666666']`
for an empty color list, then maps the per-color body over the list. -/
def createScribblePatternSet (defsNode : Option ℕ) (colors : List String)
    (st : EngineState) : List String × EngineState :=
  let safeColors := if colors.isEmpty then ["#666666"] else colors
  runPatternSet (fun s c i => scribbleStep defsNode safeColors.length s c i)
    safeColors 0 st

/-- `createOilPaintPatternSet(defs, colors)`. -/
def createOilPaintPatternSet (defsNode : Option ℕ) (colors : List String)
    (st : EngineState) : List String × EngineState :=
  runPatternSet (fun s c i => oilStep defsNode colors.length s c i)
    colors 0 st

/-! ### Cache lemmas -/

theorem sweepExpired_mem {ks : List String} {c : PatternCache} {dm : Dom}
    {p : String × PatternCacheEntry} (h : p ∈ (sweepExpired ks c dm).1) :
    p ∈ c ∧ p.1 ∉ ks := by
  induction ks generalizing c dm with
  | nil => simpa [sweepExpired] using h
  | cons k ks ih =>
    rw [sweepExpired] at h
    cases hg : mapGet c k with
    | some e =>
      rw [hg] at h
      obtain ⟨hmem, hnot⟩ := ih h
      have hpc := mem_of_mem_mapDelete hmem
      have hne : p.1 ≠ k := by
        intro hk
        have := List.of_mem_filter hmem
        simp [hk] at this
      simp [hne, hnot, hpc]
    | none =>
      rw [hg] at h
      obtain ⟨hmem, hnot⟩ := ih h
      have hne : p.1 ≠ k := by
        intro hk
        rw [mapGet_eq_none_iff] at hg
        exact hg (hk ▸ List.mem_map_of_mem Prod.fst hmem)
      simp [hne, hnot, hmem]

theorem sweepExpired_cache_filter (ks : List String) (c : PatternCache)
    (dm : Dom) : ∃ q, (sweepExpired ks c dm).1 = c.filter q := by
  induction ks generalizing c dm with
  | nil => exact ⟨fun _ => true, by simp [sweepExpired]⟩
  | cons k ks ih =>
    rw [sweepExpired]
    cases hg : mapGet c k with
    | some e =>
      obtain ⟨q, hq⟩ := ih (mapDelete c k) (dm.erase (e.defsElement, e.patternId))
      exact ⟨fun p => q p && (p.1 != k), by
        rw [hq, mapDelete, List.filter_filter]⟩
    | none => exact ih c dm

theorem evictEntries_cache_filter (rs : List (String × PatternCacheEntry))
    (c : PatternCache) (dm : Dom) :
    (evictEntries rs c dm).1 =
      c.filter (fun p => !(rs.any (fun r => p.1 == r.1))) := by
  induction rs generalizing c dm with
  | nil => simp [evictEntries]
  | cons r rs ih =>
    obtain ⟨k, e⟩ := r
    rw [evictEntries, ih, mapDelete, List.filter_filter]
    apply List.filter_congr
    intro p _
    by_cases hpk : p.1 = k <;> simp [hpk, bne, Bool.and_comm]

theorem evictEntries_mem {rs : List (String × PatternCacheEntry)}
    {c : PatternCache} {dm : Dom} {p : String × PatternCacheEntry}
    (h : p ∈ (evictEntries rs c dm).1) : p ∈ c := by
  rw [evictEntries_cache_filter] at h
  exact List.mem_of_mem_filter h

theorem evictEntries_take_length (c : PatternCache) (dm : Dom)
    (sorted : List (String × PatternCacheEntry)) (hperm : sorted.Perm c)
    (n : ℕ) :
    (evictEntries (sorted.take (sorted.length - n)) c dm).1.length ≤ n := by
  set rs := sorted.take (sorted.length - n) with hrs
  set keyIn : String × PatternCacheEntry → Bool :=
    fun p => rs.any (fun r => p.1 == r.1) with hkeyIn
  have hsl : sorted.length = c.length := hperm.length_eq
  have hcount_rs : rs.countP keyIn = rs.length :=
    List.countP_eq_length.mpr
      (fun a ha => List.any_eq_true.mpr ⟨a, ha, by simp⟩)
  have hcount_ge : rs.length ≤ c.countP keyIn := by
    calc rs.length = rs.countP keyIn := hcount_rs.symm
      _ ≤ sorted.countP keyIn :=
        List.Sublist.countP_le keyIn (List.take_sublist _ _)
      _ = c.countP keyIn := hperm.countP_eq keyIn
  have hrs_len : rs.length = sorted.length - n := by
    rw [hrs, List.length_take]
    omega
  have hsplit := List.length_eq_countP_add_countP keyIn c
  have hfil := evictEntries_cache_filter rs c dm
  have hlenfil : (evictEntries rs c dm).1.length =
      c.countP (fun p => !keyIn p) := by
    rw [hfil, ← List.countP_eq_length_filter]
  have hco : c.countP (fun p => !keyIn p) =
      c.countP (fun p => decide ¬(keyIn p = true)) :=
    List.countP_congr (fun a _ => by simp)
  omega

theorem cleanupCapped_length_le (st : EngineState)
    (swept : PatternCache × Dom) :
    (cleanupCapped st swept).cache.length ≤ maxCacheSize ∨
      (cleanupCapped st swept).cache = swept.1 ∧
        swept.1.length ≤ maxCacheSize := by
  unfold cleanupCapped
  by_cases hlen : maxCacheSize < swept.1.length
  · rw [if_pos hlen]
    exact Or.inl (evictEntries_take_length swept.1 swept.2
      (swept.1.mergeSort (fun a b => a.2.lastUsed ≤ b.2.lastUsed))
      (List.mergeSort_perm _ _) maxCacheSize)
  · rw [if_neg hlen]
    exact Or.inr ⟨rfl, by omega⟩

theorem cleanupCache_length_le (st : EngineState) :
    (cleanupCache st).cache.length ≤ maxCacheSize := by
  unfold cleanupCache
  rcases cleanupCapped_length_le st
      (sweepExpired (expiredKeysOf st) st.cache st.dom) with h | ⟨heq, hle⟩
  · exact h
  · rw [heq]
    exact hle

theorem cleanupCapped_mem {st : EngineState} {swept : PatternCache × Dom}
    {p : String × PatternCacheEntry}
    (h : p ∈ (cleanupCapped st swept).cache) : p ∈ swept.1 := by
  unfold cleanupCapped at h
  by_cases hlen : maxCacheSize < swept.1.length
  · rw [if_pos hlen] at h
    exact evictEntries_mem h
  · rwa [if_neg hlen] at h

theorem cleanupCache_mem {st : EngineState} {p : String × PatternCacheEntry}
    (h : p ∈ (cleanupCache st).cache) : p ∈ st.cache :=
  (sweepExpired_mem (cleanupCapped_mem h)).1

theorem cleanupCache_not_expired {st : EngineState}
    {p : String × PatternCacheEntry} (h : p ∈ (cleanupCache st).cache) :
    st.now - p.2.lastUsed ≤ cacheExpirationTime := by
  obtain ⟨hpc, hnot⟩ := sweepExpired_mem (cleanupCapped_mem h)
  by_contra hexp
  push_neg at hexp
  exact hnot (List.mem_map_of_mem Prod.fst
    (List.mem_filter.mpr ⟨hpc, by simpa using hexp⟩))

theorem cleanupCache_cache_filter (st : EngineState) :
    ∃ q, (cleanupCache st).cache = st.cache.filter q := by
  obtain ⟨q1, hq1⟩ :=
    sweepExpired_cache_filter (expiredKeysOf st) st.cache st.dom
  unfold cleanupCache cleanupCapped
  by_cases hlen : maxCacheSize <
      (sweepExpired (expiredKeysOf st) st.cache st.dom).1.length
  · rw [if_pos hlen]
    simp only
    rw [evictEntries_cache_filter, hq1, List.filter_filter]
    exact ⟨_, rfl⟩
  · rw [if_neg hlen]
    exact ⟨q1, hq1⟩

/-- On a map with unique keys, passing to any sub-collection (filter)
either drops a binding entirely or leaves lookup unchanged. -/
theorem mapGet_filter_of_nodup {α : Type} {m : List (String × α)}
    (q : String × α → Bool) (k : String)
    (hnd : (m.map Prod.fst).Nodup) :
    mapGet (m.filter q) k = none ∨ mapGet (m.filter q) k = mapGet m k := by
  induction m with
  | nil => exact Or.inl rfl
  | cons p rest ih =>
    obtain ⟨k1, v⟩ := p
    simp only [List.map_cons, List.nodup_cons] at hnd
    obtain ⟨hk1, hndr⟩ := hnd
    by_cases hk : k1 = k
    · subst hk
      by_cases hq : q (k1, v)
      · rw [List.filter_cons_of_pos hq]
        exact Or.inr (by simp [mapGet])
      · rw [List.filter_cons_of_neg hq]
        refine Or.inl ?_
        rw [mapGet_eq_none_iff]
        intro hmem
        exact hk1 (by
          obtain ⟨p2, hp2, hfst⟩ := List.mem_map.mp hmem
          exact hfst ▸ List.mem_map_of_mem Prod.fst (List.mem_of_mem_filter hp2))
    · have hrec := ih hndr
      by_cases hq : q (k1, v)
      · rw [List.filter_cons_of_pos hq]
        simpa [mapGet, hk] using hrec
      · rw [List.filter_cons_of_neg hq]
        simpa [mapGet, hk] using hrec

theorem mapGet_cleanupCache {st : EngineState} (k : String)
    (hnd : (st.cache.map Prod.fst).Nodup) :
    mapGet (cleanupCache st).cache k = none ∨
      mapGet (cleanupCache st).cache k = mapGet st.cache k := by
  obtain ⟨q, hq⟩ := cleanupCache_cache_filter st
  rw [hq]
  exact mapGet_filter_of_nodup q k hnd

theorem mapGet_cleanupCache_mk (c : PatternCache) (dm : Dom)
    (now fresh : ℕ) (k : String) (hnd : (c.map Prod.fst).Nodup) :
    mapGet (cleanupCache ⟨c, dm, now, fresh⟩).cache k = none ∨
      mapGet (cleanupCache ⟨c, dm, now, fresh⟩).cache k = mapGet c k :=
  mapGet_cleanupCache k hnd

theorem cleanupCache_not_expired_mk (c : PatternCache) (dm : Dom)
    (now fresh : ℕ) {p : String × PatternCacheEntry}
    (h : p ∈ (cleanupCache ⟨c, dm, now, fresh⟩).cache) :
    now - p.2.lastUsed ≤ cacheExpirationTime :=
  cleanupCache_not_expired h

theorem mapSet_keys_of_mem {α : Type} (m : List (String × α)) (k : String)
    (v : α) (h : (mapGet m k).isSome) :
    (mapSet m k v).map Prod.fst = m.map Prod.fst := by
  induction m with
  | nil => simp [mapGet] at h
  | cons p rest ih =>
    obtain ⟨k1, v1⟩ := p
    by_cases hk : k1 = k
    · simp [mapSet, hk]
    · simp [mapGet, hk] at h
      simp [mapSet, hk, ih h]

theorem mapSet_nodup {α : Type} (m : List (String × α)) (k : String) (v : α)
    (hnd : (m.map Prod.fst).Nodup) :
    ((mapSet m k v).map Prod.fst).Nodup := by
  cases hg : mapGet m k with
  | some w => rw [mapSet_keys_of_mem m k v (by simp [hg])]; exact hnd
  | none =>
    rw [mapSet_eq_append_of_fresh m k v hg]
    rw [mapGet_eq_none_iff] at hg
    rw [List.map_append, List.nodup_append]
    refine ⟨hnd, List.nodup_singleton k, ?_⟩
    intro a ha hb
    simp only [List.map_cons, List.map_nil, List.mem_singleton] at hb
    exact hg (hb ▸ ha)

theorem mapDelete_nodup {α : Type} (m : List (String × α)) (k : String)
    (hnd : (m.map Prod.fst).Nodup) :
    ((mapDelete m k).map Prod.fst).Nodup :=
  (hnd.sublist (List.Sublist.map Prod.fst (List.filter_sublist m)))

theorem cleanupCache_fresh (st : EngineState) :
    (cleanupCache st).fresh = st.fresh := by
  unfold cleanupCache cleanupCapped
  split <;> rfl

theorem cleanupCache_now (st : EngineState) :
    (cleanupCache st).now = st.now := by
  unfold cleanupCache cleanupCapped
  split <;> rfl

/-- The 80%-of-cap trigger `this.patternCache.size > this.maxCacheSize *
0.8` compares an integer with the exact value 40. -/
theorem trigger_iff (n : ℕ) :
    ((maxCacheSize : ℚ) * (8 / 10) < (n : ℚ)) ↔ 40 < n := by
  rw [show ((maxCacheSize : ℕ) : ℚ) * (8 / 10) = ((40 : ℕ) : ℚ) by
    norm_num [maxCacheSize]]
  exact_mod_cast Nat.cast_lt (α := ℚ)

theorem createAndInsert_length_le (key : String) (d : ℕ) (f : CreateFn)
    (st : EngineState) (h : st.cache.length ≤ maxCacheSize) :
    ((createAndInsert key d f st).2).cache.length ≤ maxCacheSize := by
  simp only [createAndInsert]
  split
  · exact cleanupCache_length_le _
  · next hneg =>
    rw [trigger_iff] at hneg
    simp only
    have := mapSet_length_le st.cache key
      ⟨(f st.fresh st.dom).1, stripUrl (f st.fresh st.dom).1, d, st.now⟩
    have hmax : maxCacheSize = 50 := rfl
    omega

theorem getCachedPattern_length_le (key : PatternCacheKey)
    (defsNode : Option ℕ) (f : CreateFn) (st : EngineState)
    (h : st.cache.length ≤ maxCacheSize) :
    ((getCachedPattern key defsNode f st).2).cache.length ≤ maxCacheSize := by
  cases defsNode with
  | none => exact h
  | some d =>
    simp only [getCachedPattern]
    cases hg : mapGet st.cache (generateCacheKey key) with
    | some cached =>
      dsimp only
      by_cases hdefs : cached.defsElement = d
      · rw [if_pos hdefs]
        by_cases hdom : (d, cached.patternId) ∈ st.dom
        · rw [if_pos hdom]
          simp only
          rw [mapSet_length_of_mem _ _ _ (by simp [hg])]
          exact h
        · rw [if_neg hdom]
          exact createAndInsert_length_le _ _ _ _
            (le_trans (mapDelete_length_le _ _) h)
      · rw [if_neg hdefs]
        exact createAndInsert_length_le _ _ _ _ h
    | none => exact createAndInsert_length_le _ _ _ _ h

theorem getCachedPattern_sweeps (key : PatternCacheKey) (d : ℕ)
    (f : CreateFn) (st : EngineState)
    (hmiss : mapGet st.cache (generateCacheKey key) = none)
    (hcap : 40 ≤ st.cache.length) :
    ∀ p ∈ ((getCachedPattern key (some d) f st).2).cache,
      st.now - p.2.lastUsed ≤ cacheExpirationTime := by
  intro p hp
  rw [getCachedPattern] at hp
  rw [hmiss] at hp
  dsimp only at hp
  rw [createAndInsert] at hp
  dsimp only at hp
  rw [mapSet_eq_append_of_fresh _ _ _ hmiss] at hp
  rw [if_pos (by
    rw [trigger_iff]
    rw [List.length_append]
    simp only [List.length_singleton]
    omega)] at hp
  dsimp only at hp
  exact cleanupCache_not_expired_mk _ _ _ _ hp

theorem createAndInsert_spec (key : String) (d : ℕ) (f : CreateFn)
    (st : EngineState) (hnd : (st.cache.map Prod.fst).Nodup) :
    (createAndInsert key d f st).1 = (f st.fresh st.dom).1 ∧
    ((createAndInsert key d f st).2).fresh = (f st.fresh st.dom).2.1 ∧
    ∀ e2, mapGet ((createAndInsert key d f st).2).cache key = some e2 →
      e2 = ⟨(f st.fresh st.dom).1, stripUrl (f st.fresh st.dom).1, d,
        st.now⟩ := by
  simp only [createAndInsert]
  split
  · refine ⟨rfl, cleanupCache_fresh _, ?_⟩
    intro e2 he2
    rcases mapGet_cleanupCache_mk _ _ _ _ key (mapSet_nodup _ _ _ hnd)
      with hnone | heq
    · rw [hnone] at he2
      exact absurd he2 (by simp)
    · rw [heq, mapGet_mapSet_self] at he2
      exact (Option.some_injective _ he2).symm
  · refine ⟨rfl, rfl, ?_⟩
    intro e2 he2
    simp only at he2
    rw [mapGet_mapSet_self] at he2
    exact (Option.some_injective _ he2).symm

theorem runPatternSet_length
    (step : EngineState → String → ℕ → String × EngineState)
    (l : List String) (i : ℕ) (st : EngineState) :
    (runPatternSet step l i st).1.length = l.length := by
  induction l generalizing i st with
  | nil => rfl
  | cons c cs ih =>
    rw [runPatternSet]
    simp only [List.length_cons, ih]

/-- Positional correspondence: the token at position `i` is the one the
per-color body produces for the color at position `i` (with index `i`),
run in the state left behind by the first `i` colors. -/
theorem runPatternSet_get
    (step : EngineState → String → ℕ → String × EngineState)
    (l : List String) (n : ℕ) (st : EngineState) (i : ℕ) :
    (runPatternSet step l n st).1.get? i =
      (l.get? i).map
        (fun c => (step (runPatternSet step (l.take i) n st).2 c (n + i)).1) := by
  induction l generalizing n st i with
  | nil => simp [runPatternSet]
  | cons c cs ih =>
    cases i with
    | zero => simp [runPatternSet]
    | succ i =>
      rw [runPatternSet]
      simp only [List.get?_cons_succ, List.take_succ_cons]
      rw [ih (n + 1) _ i, runPatternSet]
      simp only
      have harith : n + (i + 1) = n + 1 + i := by omega
      rw [harith]

theorem runPatternSet_cache_le
    (step : EngineState → String → ℕ → String × EngineState)
    (hstep : ∀ st c i, st.cache.length ≤ maxCacheSize →
      ((step st c i).2).cache.length ≤ maxCacheSize)
    (l : List String) (i : ℕ) (st : EngineState)
    (h : st.cache.length ≤ maxCacheSize) :
    ((runPatternSet step l i st).2).cache.length ≤ maxCacheSize := by
  induction l generalizing i st with
  | nil => exact h
  | cons c cs ih =>
    rw [runPatternSet]
    exact ih (i + 1) _ (hstep st c i h)

/-- An arbitrary interleaving of pattern requests against the shared
cache. -/
def runRequests (reqs : List (PatternCacheKey × Option ℕ × CreateFn))
    (st : EngineState) : EngineState :=
  reqs.foldl (fun s r => (getCachedPattern r.1 r.2.1 r.2.2 s).2) st

theorem runRequests_cache_le
    (reqs : List (PatternCacheKey × Option ℕ × CreateFn)) (st : EngineState)
    (h : st.cache.length ≤ maxCacheSize) :
    (runRequests reqs st).cache.length ≤ maxCacheSize := by
  induction reqs generalizing st with
  | nil => exact h
  | cons r rs ih =>
    rw [runRequests, List.foldl_cons]
    exact ih _ (getCachedPattern_length_le r.1 r.2.1 r.2.2 st h)

end ScribbleFillUtils

/-!
### The hand-drawn path engine (`HandDrawnUtils`)

```ts
private static samplePathPoints(pathString: string, numPoints: number): PathPoint[] {
    const cacheKey = `${pathString}_${numPoints}`;
    if (this.pathCache.has(cacheKey)) { return this.pathCache.get(cacheKey)!.sampledPoints; }
    ...
    const length = this.tempPath.getTotalLength();
    for (let i = 0; i <= numPoints; i++) {
        const point = this.tempPath.getPointAtLength(length * i / numPoints);
        points.push({ x: point.x, y: point.y });
    }
    this.pathCache.set(cacheKey, { originalPath, sampledPoints, length });
    if (this.pathCache.size > 100) {
        const firstKey = this.pathCache.keys().next().value;
        if (firstKey) { this.pathCache.delete(firstKey); }
    }
    return points;
}
static addHandDrawnEffect(pathString: string, jitterAmount = 2, numPoints = 100): string {
    try {
        const basePoints = this.samplePathPoints(pathString, numPoints);
        const handDrawnPoints = basePoints.map(point => ({
            x: point.x + (Math.random() - 0.5) * jitterAmount,
            y: point.y + (Math.random() - 0.5) * jitterAmount }));
        return handDrawnLine(handDrawnPoints) || '';
    } catch (error) { return pathString; }
}
```
-/

namespace HandDrawnUtils

structure PathPoint where
  x : ℚ
  y : ℚ
deriving DecidableEq, Repr

/-- `interface PathCache` — one entry of the sample cache. -/
structure PathCache where
  originalPath : String
  sampledPoints : List PathPoint
  length : ℚ
deriving DecidableEq, Repr

abbrev PathCacheMap := List (String × PathCache)

/-- The length-query / point-at-distance capability of the scratch SVG
path element (`getTotalLength` / `getPointAtLength`).  The queries are
fallible: on a malformed path descriptor the substrate throws, which the
embedding models as `Except.error`. -/
structure Geom where
  getTotalLength : String → Except String ℚ
  getPointAtLength : String → ℚ → Except String PathPoint

/-- The sampling loop `for (let i = 0; i <= numPoints; i++)` over a given
index list; an error from the substrate aborts the loop (the exception
propagates). -/
def samplePointsAux (G : Geom) (pathString : String) (len : ℚ)
    (numPoints : ℕ) : List ℕ → Except String (List PathPoint)
  | [] => Except.ok []
  | i :: is =>
    match G.getPointAtLength pathString (len * (i : ℚ) / (numPoints : ℚ)) with
    | Except.error msg => Except.error msg
    | Except.ok pt =>
      match samplePointsAux G pathString len numPoints is with
      | Except.error msg => Except.error msg
      | Except.ok rest => Except.ok (pt :: rest)

/-- `samplePathPoints(pathString, numPoints)`, with the module-level
`pathCache` threaded explicitly.  On a cache hit the cached points are
returned and the cache is untouched; otherwise the path is sampled at
`numPoints + 1` distances, the result is cached, and if the cache then
holds more than 100 entries the first (oldest-inserted) key is evicted —
guarded, as in the source, by the truthiness of `firstKey` (an empty
string key would be skipped; in practice every key contains `_`). -/
def samplePathPoints (G : Geom) (pathString : String) (numPoints : ℕ)
    (cache : PathCacheMap) : Except String (List PathPoint × PathCacheMap) :=
  let cacheKey := pathString ++ "_" ++ toString numPoints
  match mapGet cache cacheKey with
  | some e => Except.ok (e.sampledPoints, cache)
  | none =>
    match G.getTotalLength pathString with
    | Except.error msg => Except.error msg
    | Except.ok len =>
      match samplePointsAux G pathString len numPoints
          (List.range (numPoints + 1)) with
      | Except.error msg => Except.error msg
      | Except.ok points =>
        let cache1 := mapSet cache cacheKey ⟨pathString, points, len⟩
        let cache2 :=
          if 100 < cache1.length then
            match cache1.head? with
            | none => cache1
            | some (k, _) => if k = "" then cache1 else mapDelete cache1 k
          else cache1
        Except.ok (points, cache2)

/-- The displacement map of `addHandDrawnEffect`: each sampled point is
moved by `(Math.random() - 0.5) * jitterAmount` independently on each
axis; `rand` is the ambient `Math.random` stream, consumed in call
order. -/
def jitterPoints (rand : ℕ → ℚ) (jitterAmount : ℚ) :
    ℕ → List PathPoint → List PathPoint
  | _, [] => []
  | k, p :: ps =>
    ⟨p.x + (rand k - 1/2) * jitterAmount,
      p.y + (rand (k + 1) - 1/2) * jitterAmount⟩ ::
      jitterPoints rand jitterAmount (k + 2) ps

/-- `addHandDrawnEffect(pathString, jitterAmount, numPoints)`.  The
`d3.line().curve(d3.curveBasis)` generator is the external `d3line`
parameter (`handDrawnLine(handDrawnPoints) || ''`).  The `try/catch`
makes the function total: any failure inside sampling returns the
original path string with the cache untouched — it never propagates an
exception, which the embedding expresses by returning `String` rather
than `Except`. -/
def addHandDrawnEffect (G : Geom) (d3line : List PathPoint → Option String)
    (rand : ℕ → ℚ) (pathString : String) (jitterAmount : ℚ) (numPoints : ℕ)
    (cache : PathCacheMap) : String × PathCacheMap :=
  match samplePathPoints G pathString numPoints cache with
  | Except.error _ => (pathString, cache)
  | Except.ok r => ((d3line (jitterPoints rand jitterAmount 0 r.1)).getD "", r.2)

theorem samplePointsAux_length (G : Geom) (p : String) (len : ℚ) (n : ℕ)
    (is : List ℕ) (ys : List PathPoint)
    (h : samplePointsAux G p len n is = Except.ok ys) :
    ys.length = is.length := by
  induction is generalizing ys with
  | nil =>
    rw [samplePointsAux] at h
    cases h
    rfl
  | cons i is ih =>
    rw [samplePointsAux] at h
    cases hpt : G.getPointAtLength p (len * (i : ℚ) / (n : ℚ)) with
    | error msg => rw [hpt] at h; cases h
    | ok pt =>
      rw [hpt] at h
      cases hrest : samplePointsAux G p len n is with
      | error msg => rw [hrest] at h; cases h
      | ok rest =>
        rw [hrest] at h
        cases h
        simp [ih rest hrest]

theorem samplePointsAux_get (G : Geom) (p : String) (len : ℚ) (n : ℕ)
    (is : List ℕ) (ys : List PathPoint)
    (h : samplePointsAux G p len n is = Except.ok ys) (j : ℕ) (idx : ℕ)
    (hidx : is.get? j = some idx) (pt : PathPoint)
    (hpt : ys.get? j = some pt) :
    G.getPointAtLength p (len * (idx : ℚ) / (n : ℚ)) = Except.ok pt := by
  induction is generalizing ys j with
  | nil => cases hidx
  | cons i is ih =>
    rw [samplePointsAux] at h
    cases hq : G.getPointAtLength p (len * (i : ℚ) / (n : ℚ)) with
    | error msg => rw [hq] at h; cases h
    | ok q =>
      rw [hq] at h
      cases hrest : samplePointsAux G p len n is with
      | error msg => rw [hrest] at h; cases h
      | ok rest =>
        rw [hrest] at h
        cases h
        cases j with
        | zero =>
          cases hidx
          cases hpt
          exact hq
        | succ j =>
          exact ih rest hrest j (by simpa using hidx) (by simpa using hpt)

theorem jitterPoints_length (rand : ℕ → ℚ) (j : ℚ) (k : ℕ)
    (ps : List PathPoint) : (jitterPoints rand j k ps).length = ps.length := by
  induction ps generalizing k with
  | nil => rfl
  | cons p ps ih => simp [jitterPoints, ih]

theorem jitterPoints_get (rand : ℕ → ℚ) (j : ℚ) (k : ℕ)
    (ps : List PathPoint) (i : ℕ) :
    (jitterPoints rand j k ps).get? i =
      (ps.get? i).map (fun p =>
        ⟨p.x + (rand (k + 2 * i) - 1/2) * j,
          p.y + (rand (k + 2 * i + 1) - 1/2) * j⟩) := by
  induction ps generalizing k i with
  | nil => simp [jitterPoints]
  | cons p ps ih =>
    cases i with
    | zero => simp [jitterPoints]
    | succ i =>
      simp only [jitterPoints, List.get?_cons_succ]
      rw [ih (k + 2) i]
      have h1 : k + 2 + 2 * i = k + 2 * (i + 1) := by omega
      rw [h1]

end HandDrawnUtils

/-! ### Color adjustment (`ScribbleFillUtils.adjustColor`) -/

namespace ScribbleFillUtils

/-- Longest leading run of decimal digits (the `\d+` group). -/
def takeDigits : List Char → List Char × List Char
  | [] => ([], [])
  | c :: cs =>
    if c.isDigit then
      let r := takeDigits cs
      (c :: r.1, r.2)
    else ([], c :: cs)

def digitsVal (ds : List Char) : ℕ :=
  ds.foldl (fun n c => n * 10 + (c.toNat - 48)) 0

/-- Matcher for the body of `/rgb\((\d+),\s*(\d+),\s*(\d+)\)/` after the
literal `rgb(`. -/
def parseRgbAfter (rest : List Char) : Option (ℕ × ℕ × ℕ) :=
  let p1 := takeDigits rest
  if p1.1.isEmpty then none else
  match p1.2 with
  | ',' :: r2 =>
    let p2 := takeDigits (r2.dropWhile (fun c => c.isWhitespace))
    if p2.1.isEmpty then none else
    match p2.2 with
    | ',' :: r5 =>
      let p3 := takeDigits (r5.dropWhile (fun c => c.isWhitespace))
      if p3.1.isEmpty then none else
      match p3.2 with
      | ')' :: _ => some (digitsVal p1.1, digitsVal p2.1, digitsVal p3.1)
      | _ => none
    | _ => none
  | _ => none

/-- `computedColor.match(/rgb\((\d+),\s*(\d+),\s*(\d+)\)/)`, for strings
that carry the `rgb(` form at the start — which is the shape every
browser-normalized computed color has.  (The JavaScript regex would also
find the pattern mid-string; the strings `adjustColor` matches against
are computed colors, which always start with `rgb(`.) -/
def parseRgb (s : String) : Option (ℕ × ℕ × ℕ) :=
  match s.toList with
  | 'r' :: 'g' :: 'b' :: '(' :: rest => parseRgbAfter rest
  | _ => none

/-- Modelled from the spec: the browser computed-style round-trip used by
`adjustColor` (the source assigns the color to a throwaway element and
reads back `getComputedStyle(tempElement).color`).  The substrate is the
browser, not repository code; per spec §4.3/§9 it normalizes any
parseable CSS color to an `rgb(r, g, b)` string and is behavior-
preserving on already-`rgb()` input.  We model the fragment the claims
exercise: an input already in `rgb(r,g,b)` form (with optional spaces)
normalizes to the canonical `rgb(r, g, b)` spelling with the same
channel values; other inputs pass through unchanged. -/
def computedStyleColor (c : String) : String :=
  match parseRgb c with
  | some (r, g, b) =>
    "rgb(" ++ toString r ++ ", " ++ toString g ++ ", " ++ toString b ++ ")"
  | none => c

/-- The `hue2rgb` helper of `adjustColor` (sequential reassignment of `t`
modelled by shadowing). -/
def hue2rgb (p q t0 : ℚ) : ℚ :=
  let t1 := if t0 < 0 then t0 + 1 else t0
  let t := if 1 < t1 then t1 - 1 else t1
  if t < 1/6 then p + (q - p) * 6 * t
  else if t < 1/2 then q
  else if t < 2/3 then p + (q - p) * (2/3 - t) * 6
  else p

/-- `adjustColor(color, brightnessDelta = 0, saturationDelta = 0)`:
normalize through the computed style, parse the `rgb()` channels (return
the input unchanged if that fails), convert RGB→HSL, clamp the adjusted
saturation and lightness into `[0,1]`, convert HSL→RGB, round each
channel (`Math.round`) and format.  All arithmetic is the source's,
transcribed over exact rationals. -/
def adjustColor (color : String) (brightnessDelta saturationDelta : ℚ) :
    String :=
  let computedColor := computedStyleColor color
  match parseRgb computedColor with
  | none => color
  | some (rN, gN, bN) =>
    let r : ℚ := (rN : ℚ) / 255
    let g : ℚ := (gN : ℚ) / 255
    let b : ℚ := (bN : ℚ) / 255
    let maxC := max r (max g b)
    let minC := min r (min g b)
    let l := (maxC + minC) / 2
    let hs : ℚ × ℚ :=
      if maxC = minC then (0, 0)
      else
        let dd := maxC - minC
        let s := if 1/2 < l then dd / (2 - maxC - minC) else dd / (maxC + minC)
        let h :=
          if maxC = r then (g - b) / dd + (if g < b then 6 else 0)
          else if maxC = g then (b - r) / dd + 2
          else if maxC = b then (r - g) / dd + 4
          else 0
        (h / 6, s)
    let h := hs.1
    let s := max 0 (min 1 (hs.2 + saturationDelta))
    let adjustedL := max 0 (min 1 (l + brightnessDelta / 100))
    let rgb1 : ℚ × ℚ × ℚ :=
      if s = 0 then (adjustedL, adjustedL, adjustedL)
      else
        let q := if adjustedL < 1/2 then adjustedL * (1 + s)
          else adjustedL + s - adjustedL * s
        let p := 2 * adjustedL - q
        (hue2rgb p q (h + 1/3), hue2rgb p q h, hue2rgb p q (h - 1/3))
    "rgb(" ++ toString (jsRound (rgb1.1 * 255)) ++ ", " ++
      toString (jsRound (rgb1.2.1 * 255)) ++ ", " ++
      toString (jsRound (rgb1.2.2 * 255)) ++ ")"

end ScribbleFillUtils

/-! ## Claims -/

open ScribbleFillUtils HandDrawnUtils

/-- An empty engine state: empty cache, empty document, clock at 0. -/
def emptyEngineState : ScribbleFillUtils.EngineState := ⟨[], [], 0, 0⟩

/-- Claim C1, counterexample: for the empty color sequence
`createScribblePatternSet` substitutes the fallback palette `['#666666']`
and returns one token, so the returned sequence's length (1) differs from
the input length (0). -/
theorem claim1_counterexample :
    (createScribblePatternSet (some 0) [] emptyEngineState).1.length ≠
      ([] : List String).length := by
  intro h
  rw [List.length_nil] at h
  revert h
  set_option maxRecDepth 100000 in with_unfolding_all decide

/-- Claim C1 (amended): `createOilPaintPatternSet` always returns one
token per input color, in input order (the token at position `i` is the
one the per-color body generates for the color at position `i`, with
index `i`, in the state left by the previous colors); the same holds for
`createScribblePatternSet` whenever the input sequence is nonempty, while
for the empty sequence `createScribblePatternSet` substitutes the
fallback palette `['#666666']` and returns exactly one token. -/
theorem claim1_pattern_set_cardinality :
    (∀ (d : Option ℕ) (colors : List String) (st : EngineState),
      (createOilPaintPatternSet d colors st).1.length = colors.length) ∧
    (∀ (d : Option ℕ) (colors : List String) (st : EngineState),
      colors ≠ [] →
      (createScribblePatternSet d colors st).1.length = colors.length) ∧
    (∀ (d : Option ℕ) (st : EngineState),
      (createScribblePatternSet d [] st).1.length = 1) ∧
    (∀ (d : Option ℕ) (colors : List String) (st : EngineState) (i : ℕ),
      (createOilPaintPatternSet d colors st).1.get? i =
        (colors.get? i).map (fun c =>
          (oilStep d colors.length
            (runPatternSet (fun s c2 i2 => oilStep d colors.length s c2 i2)
              (colors.take i) 0 st).2 c i).1)) ∧
    (∀ (d : Option ℕ) (colors : List String) (st : EngineState) (i : ℕ),
      colors ≠ [] →
      (createScribblePatternSet d colors st).1.get? i =
        (colors.get? i).map (fun c =>
          (scribbleStep d colors.length
            (runPatternSet
              (fun s c2 i2 => scribbleStep d colors.length s c2 i2)
              (colors.take i) 0 st).2 c i).1)) := by
  refine ⟨?_, ?_, ?_, ?_, ?_⟩
  · intro d colors st
    exact runPatternSet_length _ colors 0 st
  · intro d colors st hne
    cases colors with
    | nil => exact absurd rfl hne
    | cons c cs =>
      exact runPatternSet_length _ (c :: cs) 0 st
  · intro d st
    exact runPatternSet_length _ ["#666666"] 0 st
  · intro d colors st i
    have h := runPatternSet_get
      (fun s c2 i2 => oilStep d colors.length s c2 i2) colors 0 st i
    simpa [Nat.zero_add] using h
  · intro d colors st i hne
    cases colors with
    | nil => exact absurd rfl hne
    | cons c cs =>
      have h := runPatternSet_get
        (fun s c2 i2 => scribbleStep d (c :: cs).length s c2 i2)
        (c :: cs) 0 st i
      simpa [createScribblePatternSet, Nat.zero_add] using h

/-- Claim C1 witness: for a one-color palette the scribble set has
exactly one token. -/
theorem claim1_witness :
    (createScribblePatternSet (some 0) ["#FF0000"] emptyEngineState).1.length
      = 1 :=
  claim1_pattern_set_cardinality.2.1 (some 0) ["#FF0000"] emptyEngineState
    (by intro h; cases h)

/-- Claim C2, counterexample: the seed `"zzzzzz"` hashes to the negative
32-bit value `-685785664`, and the first value the generator returns is
`-20663/25920 < 0`, outside the claimed interval `[0, 1)`. -/
theorem claim2_counterexample : ¬ (0 ≤ seededRandom "zzzzzz" 0) := by
  set_option maxRecDepth 100000 in with_unfolding_all decide

/-- Claim C2 (amended): the value sequence of `seededRandom(seed)` is a
function of the seed's 32-bit string hash alone — re-deriving the
generator from an equal-hash seed (in particular, the same seed)
reproduces the same sequence; every produced value lies in the open
interval `(-1, 1)`; and when the seed's hash is nonnegative every value
lies in the claimed `[0, 1)`.  (Seeds whose hash is negative — e.g.
`"zzzzzz"`, or the realistic `"#FF0000-0-scribble"` — produce negative
values, so `[0,1)` does not hold in general.) -/
theorem claim2_seeded_random_reproducible_bounded :
    (∀ s t : String, hashString s = hashString t →
      ∀ n, seededRandom s n = seededRandom t n) ∧
    (∀ (s : String) (n : ℕ),
      -1 < seededRandom s n ∧ seededRandom s n < 1) ∧
    (∀ s : String, 0 ≤ hashString s →
      ∀ n, 0 ≤ seededRandom s n ∧ seededRandom s n < 1) :=
  ⟨fun _ _ h n => seededRandom_congr h n,
    fun s n => seededRandom_mem_Ioo s n,
    fun s h n => ⟨seededRandom_nonneg_of_hash_nonneg h n,
      (seededRandom_mem_Ioo s n).2⟩⟩

/-- Claim C2 witness: `"Aa"` and `"BB"` hash equally, so their generators
agree; the seed `"a"` has nonnegative hash, so its first value lies in
`[0, 1)`. -/
theorem claim2_witness :
    seededRandom "Aa" 0 = seededRandom "BB" 0 ∧ 0 ≤ seededRandom "a" 0 :=
  ⟨claim2_seeded_random_reproducible_bounded.1 "Aa" "BB" (by decide) 0,
    (claim2_seeded_random_reproducible_bounded.2.2 "a" (by decide) 0).1⟩

/-- Claim C3: `addHandDrawnEffect` is a total function into path strings
(the embedding's return type — the `try/catch` in the source never lets
an exception escape), and whenever the internal geometry sampling fails
(`samplePathPoints` throws on the given input), it returns exactly the
input path string, with the sample cache untouched. -/
theorem claim3_jitter_fallback (G : Geom)
    (d3line : List PathPoint → Option String) (rand : ℕ → ℚ)
    (pathString : String) (jitterAmount : ℚ) (numPoints : ℕ)
    (cache : PathCacheMap) (msg : String)
    (hfail : samplePathPoints G pathString numPoints cache =
      Except.error msg) :
    addHandDrawnEffect G d3line rand pathString jitterAmount numPoints cache
      = (pathString, cache) := by
  rw [addHandDrawnEffect, hfail]

/-- Claim C3 witness: with a substrate that rejects the path, the effect
returns the malformed path unchanged. -/
theorem claim3_witness :
    addHandDrawnEffect ⟨fun _ => Except.error "bad",
        fun _ _ => Except.error "bad"⟩
      (fun _ => none) (fun _ => 0) "not-a-path" 2 100 [] =
      ("not-a-path", []) :=
  claim3_jitter_fallback _ _ _ _ _ _ _ "bad" rfl

/-- Claim C9: `adjustColor('rgb(255,0,0)', 0, 0)` returns exactly
`'rgb(255, 0, 0)'` — with zero deltas the RGB→HSL→RGB round trip with
clamping and rounding is the identity on this input. -/
theorem claim9_adjust_color_identity :
    adjustColor "rgb(255,0,0)" 0 0 = "rgb(255, 0, 0)" := by
  set_option maxRecDepth 100000 in with_unfolding_all decide

/-- Claim C5: the pattern cache never exceeds `maxCacheSize = 50` live
entries after a pattern request — `getCachedPattern` preserves the cap,
hence so do `createScribblePatternSet` and `createOilPaintPatternSet`,
and any request sequence starting from the empty cache stays within the
cap no matter how many distinct keys it generates; moreover on a cache
miss at occupancy ≥ 80% of the cap (so that the post-insert size exceeds
`maxCacheSize * 0.8`), the cleanup sweep runs: every entry surviving the
request is unexpired (the expiry purge ran) — and the cap conjuncts
show the oldest-`lastUsed` trimming bounds the final size by the cap. -/
theorem claim5_pattern_cache_cap :
    (∀ (key : PatternCacheKey) (dn : Option ℕ) (f : CreateFn)
      (st : EngineState), st.cache.length ≤ maxCacheSize →
      ((getCachedPattern key dn f st).2).cache.length ≤ maxCacheSize) ∧
    (∀ (dn : Option ℕ) (colors : List String) (st : EngineState),
      st.cache.length ≤ maxCacheSize →
      ((createScribblePatternSet dn colors st).2).cache.length ≤
        maxCacheSize) ∧
    (∀ (dn : Option ℕ) (colors : List String) (st : EngineState),
      st.cache.length ≤ maxCacheSize →
      ((createOilPaintPatternSet dn colors st).2).cache.length ≤
        maxCacheSize) ∧
    (∀ (reqs : List (PatternCacheKey × Option ℕ × CreateFn))
      (st : EngineState), st.cache = [] →
      (runRequests reqs st).cache.length ≤ maxCacheSize) ∧
    (∀ (key : PatternCacheKey) (d : ℕ) (f : CreateFn) (st : EngineState),
      mapGet st.cache (generateCacheKey key) = none →
      40 ≤ st.cache.length →
      ∀ p ∈ ((getCachedPattern key (some d) f st).2).cache,
        st.now - p.2.lastUsed ≤ cacheExpirationTime) := by
  refine ⟨getCachedPattern_length_le, ?_, ?_, ?_, getCachedPattern_sweeps⟩
  · intro dn colors st h
    exact runPatternSet_cache_le _
      (fun st2 c i h2 => getCachedPattern_length_le _ _ _ st2 h2) _ 0 st h
  · intro dn colors st h
    exact runPatternSet_cache_le _
      (fun st2 c i h2 => getCachedPattern_length_le _ _ _ st2 h2) _ 0 st h
  · intro reqs st h
    exact runRequests_cache_le reqs st (by rw [h]; exact Nat.zero_le _)

/-- Claim C5 witness: a request against the empty cache leaves at most
50 entries. -/
theorem claim5_witness :
    ((getCachedPattern ⟨"scribble", "#FF0000", none, none, none, none,
        none, none⟩ (some 0) (scribbleCreateFn (some 0))
      emptyEngineState).2).cache.length ≤ maxCacheSize :=
  claim5_pattern_cache_cap.1 _ (some 0) (scribbleCreateFn (some 0))
    emptyEngineState (by decide)

/-- Claim C8: `generateNaturalVariation` is deterministic — it consumes
only the seeded generator (never the ambient `Math.random`), so any two
calls with identical `(color, index, total)` arguments return identical
`(direction, density, strokeVariation, opacityVariation)` tuples. -/
theorem claim8_variation_deterministic (c1 c2 : String) (i1 i2 t1 t2 : ℕ)
    (hc : c1 = c2) (hi : i1 = i2) (ht : t1 = t2) :
    generateNaturalVariation c1 i1 t1 = generateNaturalVariation c2 i2 t2 := by
  rw [hc, hi, ht]

/-- Claim C8 witness: two identical calls agree. -/
theorem claim8_witness :
    generateNaturalVariation "#FF0000" 0 3 =
      generateNaturalVariation "#FF0000" 0 3 :=
  claim8_variation_deterministic "#FF0000" "#FF0000" 0 0 3 3 rfl rfl rfl

/-- Claim C4: on a fresh sampling that succeeds (`samplePathPoints` on a
cache miss), exactly `numPoints + 1` points are sampled, each one via the
point-at-distance query at `length * i / numPoints`; `addHandDrawnEffect`
displaces each sampled point independently per axis by
`(Math.random() - 0.5) * jitterAmount ∈ [-jitterAmount/2, jitterAmount/2)`
(for `Math.random` values in `[0,1)` and positive `jitterAmount`), so
every displaced point stays within `jitterAmount` of its sample on each
axis, and the effect's output is the spline through exactly those
displaced points. -/
theorem claim4_jitter_sampling_bounds (G : Geom) (rand : ℕ → ℚ)
    (p : String) (n : ℕ) (j : ℚ) (cache : PathCacheMap)
    (pts : List PathPoint) (c2 : PathCacheMap)
    (hmiss : mapGet cache (p ++ "_" ++ toString n) = none)
    (hok : samplePathPoints G p n cache = Except.ok (pts, c2))
    (hrand : ∀ k, 0 ≤ rand k ∧ rand k < 1)
    (hj : 0 < j) :
    pts.length = n + 1 ∧
    (∃ L, G.getTotalLength p = Except.ok L ∧
      ∀ i pt, pts.get? i = some pt →
        G.getPointAtLength p (L * (i : ℚ) / (n : ℚ)) = Except.ok pt) ∧
    (jitterPoints rand j 0 pts).length = pts.length ∧
    (∀ i pt qt, pts.get? i = some pt →
      (jitterPoints rand j 0 pts).get? i = some qt →
      (-(j / 2) ≤ qt.x - pt.x ∧ qt.x - pt.x < j / 2 ∧ |qt.x - pt.x| ≤ j) ∧
      (-(j / 2) ≤ qt.y - pt.y ∧ qt.y - pt.y < j / 2 ∧ |qt.y - pt.y| ≤ j)) ∧
    (∀ d3line : List PathPoint → Option String,
      addHandDrawnEffect G d3line rand p j n cache =
        ((d3line (jitterPoints rand j 0 pts)).getD "", c2)) := by
  have hok0 := hok
  simp only [samplePathPoints] at hok
  rw [hmiss] at hok
  dsimp only at hok
  cases hL : G.getTotalLength p with
  | error msg => rw [hL] at hok; simp at hok
  | ok L =>
    rw [hL] at hok
    dsimp only at hok
    cases hAux : samplePointsAux G p L n (List.range (n + 1)) with
    | error msg => rw [hAux] at hok; simp at hok
    | ok points =>
      rw [hAux] at hok
      dsimp only at hok
      simp only [Except.ok.injEq, Prod.mk.injEq] at hok
      obtain ⟨hpts, hc2⟩ := hok
      have hlen : pts.length = n + 1 := by
        rw [← hpts]
        rw [samplePointsAux_length G p L n _ points hAux]
        exact List.length_range (n + 1)
      refine ⟨hlen, ⟨L, rfl, ?_⟩, jitterPoints_length rand j 0 pts, ?_, ?_⟩
      · intro i pt hpt
        have hi : i < n + 1 := by
          rw [← hlen]
          exact List.get?_eq_some.mp hpt |>.1
        exact samplePointsAux_get G p L n _ points hAux i i
          (List.get?_range hi) pt (hpts ▸ hpt)
      · intro i pt qt hpt hqt
        rw [jitterPoints_get, hpt] at hqt
        rw [Option.map_some'] at hqt
        rw [Option.some_inj] at hqt
        obtain ⟨hr0, hr1⟩ := hrand (0 + 2 * i)
        obtain ⟨hs0, hs1⟩ := hrand (0 + 2 * i + 1)
        rw [← hqt]
        simp only
        constructor
        · refine ⟨?_, ?_, ?_⟩
          · nlinarith [mul_nonneg hr0 hj.le]
          · nlinarith [mul_pos hj (by linarith : (0 : ℚ) < 1 - rand (0 + 2 * i))]
          · rw [abs_le]
            constructor
            · nlinarith [mul_nonneg hr0 hj.le]
            · nlinarith [mul_pos hj
                (by linarith : (0 : ℚ) < 1 - rand (0 + 2 * i))]
        · refine ⟨?_, ?_, ?_⟩
          · nlinarith [mul_nonneg hs0 hj.le]
          · nlinarith [mul_pos hj
              (by linarith : (0 : ℚ) < 1 - rand (0 + 2 * i + 1))]
          · rw [abs_le]
            constructor
            · nlinarith [mul_nonneg hs0 hj.le]
            · nlinarith [mul_pos hj
                (by linarith : (0 : ℚ) < 1 - rand (0 + 2 * i + 1))]
      · intro d3line
        rw [addHandDrawnEffect, hok0]

/-- Deleting the head key of a uniquely-keyed list with a fresh appended
entry removes exactly the head. -/
theorem mapDelete_cons_append {α : Type} (k0 : String) (v0 : α)
    (t : List (String × α)) (key : String) (e : α)
    (hnd : k0 ∉ t.map Prod.fst) (hne : key ≠ k0) :
    mapDelete ((k0, v0) :: (t ++ [(key, e)])) k0 = t ++ [(key, e)] := by
  simp only [mapDelete, List.filter_cons, List.filter_append]
  rw [if_neg (by simp)]
  have ht : t.filter (fun p => p.1 != k0) = t :=
    List.filter_eq_self.mpr (fun q hq => by
      have : q.1 ≠ k0 := fun h => hnd (h ▸ List.mem_map_of_mem Prod.fst hq)
      simpa [bne] using this)
  rw [ht]
  simp [bne, hne]

/-- The fresh-sampling success path of `samplePathPoints`: the result
cache is the input cache with the new entry appended, trimmed by the
over-100 head eviction. -/
theorem samplePathPoints_miss_ok (G : Geom) (p : String) (n : ℕ)
    (cache : PathCacheMap) (pts : List PathPoint) (c2 : PathCacheMap)
    (hget : mapGet cache (p ++ "_" ++ toString n) = none)
    (hok : samplePathPoints G p n cache = Except.ok (pts, c2)) :
    ∃ e : PathCache,
      c2 = (if 100 < (cache ++ [(p ++ "_" ++ toString n, e)]).length then
          match (cache ++ [(p ++ "_" ++ toString n, e)]).head? with
          | none => cache ++ [(p ++ "_" ++ toString n, e)]
          | some (k, _) =>
            if k = "" then cache ++ [(p ++ "_" ++ toString n, e)]
            else mapDelete (cache ++ [(p ++ "_" ++ toString n, e)]) k
        else cache ++ [(p ++ "_" ++ toString n, e)]) := by
  simp only [samplePathPoints] at hok
  rw [hget] at hok
  dsimp only at hok
  cases hL : G.getTotalLength p with
  | error msg => rw [hL] at hok; simp at hok
  | ok L =>
    rw [hL] at hok
    dsimp only at hok
    cases hAux : samplePointsAux G p L n (List.range (n + 1)) with
    | error msg => rw [hAux] at hok; simp at hok
    | ok points =>
      rw [hAux] at hok
      dsimp only at hok
      rw [mapSet_eq_append_of_fresh _ _ _ hget] at hok
      simp only [Except.ok.injEq, Prod.mk.injEq] at hok
      exact ⟨⟨p, points, L⟩, hok.2.symm⟩

/-- Claim C6: under the module invariants (keys nonempty — every key has
the form `` `${path}_${numPoints}` `` — and unique, cache within the 100
bound), every `samplePathPoints` call leaves at most 100 entries, and
when an insertion pushes the cache over the bound the entry evicted is
exactly the oldest-inserted (first) one: the resulting cache is the
input's tail plus the freshly inserted entry at the end. -/
theorem claim6_path_cache_bound (G : Geom) (p : String) (n : ℕ)
    (cache : PathCacheMap) (hlen : cache.length ≤ 100)
    (hkeys : ∀ q ∈ cache, q.1 ≠ "") :
    (∀ pts c2, samplePathPoints G p n cache = Except.ok (pts, c2) →
      c2.length ≤ 100) ∧
    (cache.length = 100 →
      mapGet cache (p ++ "_" ++ toString n) = none →
      (cache.map Prod.fst).Nodup →
      ∀ pts c2, samplePathPoints G p n cache = Except.ok (pts, c2) →
      ∃ e, c2 = cache.tail ++ [(p ++ "_" ++ toString n, e)]) := by
  constructor
  · intro pts c2 hok
    cases hget : mapGet cache (p ++ "_" ++ toString n) with
    | some e0 =>
      simp only [samplePathPoints] at hok
      rw [hget] at hok
      dsimp only at hok
      simp only [Except.ok.injEq, Prod.mk.injEq] at hok
      rw [← hok.2]
      exact hlen
    | none =>
      obtain ⟨e, he⟩ := samplePathPoints_miss_ok G p n cache pts c2 hget hok
      subst he
      cases cache with
      | nil =>
        rw [if_neg (by simp)]
        simp
      | cons hd t =>
        obtain ⟨k0, v0⟩ := hd
        simp only [List.cons_append, List.head?_cons]
        by_cases hbig : 100 <
            ((k0, v0) :: (t ++ [(p ++ "_" ++ toString n, e)])).length
        · rw [if_pos hbig]
          rw [if_neg (hkeys (k0, v0) (List.mem_cons_self _ _))]
          calc (mapDelete ((k0, v0) :: (t ++ [(p ++ "_" ++ toString n, e)]))
                k0).length
              ≤ (t ++ [(p ++ "_" ++ toString n, e)]).length := by
                simp only [mapDelete, List.filter_cons]
                rw [if_neg (by simp)]
                exact List.length_filter_le _ _
            _ ≤ 100 := by
                simp only [List.length_append, List.length_cons,
                  List.length_singleton, List.length_nil]
                simp only [List.length_cons] at hlen
                omega
        · rw [if_neg hbig]
          simp only [List.length_cons, List.length_append,
            List.length_singleton, List.length_nil] at hbig ⊢
          omega
  · intro h100 hget hnd pts c2 hok
    obtain ⟨e, he⟩ := samplePathPoints_miss_ok G p n cache pts c2 hget hok
    subst he
    cases cache with
    | nil => simp at h100
    | cons hd t =>
      obtain ⟨k0, v0⟩ := hd
      simp only [List.cons_append, List.head?_cons]
      have hbig : 100 <
          ((k0, v0) :: (t ++ [(p ++ "_" ++ toString n, e)])).length := by
        simp only [List.length_cons, List.length_append,
          List.length_singleton, List.length_nil]
        simp only [List.length_cons] at h100
        omega
      rw [if_pos hbig]
      rw [if_neg (hkeys (k0, v0) (List.mem_cons_self _ _))]
      refine ⟨e, ?_⟩
      have hk0t : k0 ∉ t.map Prod.fst := by
        simp only [List.map_cons, List.nodup_cons] at hnd
        exact hnd.1
      have hne : p ++ "_" ++ toString n ≠ k0 := by
        intro hkey
        rw [mapGet_eq_none_iff] at hget
        exact hget (hkey ▸ List.mem_map_of_mem Prod.fst
          (List.mem_cons_self (k0, v0) t))
      rw [mapDelete_cons_append k0 v0 t _ e hk0t hne]
      rfl

/-- A concrete substrate for witnesses: total length 2, every
point-at-distance query answers `(5, 7)`. -/
def claim4WitnessGeom : Geom :=
  ⟨fun _ => Except.ok 2, fun _ _ => Except.ok ⟨5, 7⟩⟩

def claim4WitnessPts : List PathPoint := [⟨5, 7⟩, ⟨5, 7⟩, ⟨5, 7⟩]

/-- Claim C4 witness: a concrete successful sampling with `numPoints = 2`
yields `2 + 1` sampled points and as many displaced points. -/
theorem claim4_witness :
    claim4WitnessPts.length = 2 + 1 ∧
    (jitterPoints (fun _ => (1 : ℚ)/2) 2 0 claim4WitnessPts).length =
      claim4WitnessPts.length :=
  have h := claim4_jitter_sampling_bounds claim4WitnessGeom
    (fun _ => (1 : ℚ)/2) "M" 2 2 [] claim4WitnessPts
    [("M_2", ⟨"M", claim4WitnessPts, 2⟩)] rfl rfl
    (fun _ => ⟨by norm_num, by norm_num⟩) (by norm_num)
  ⟨h.1, h.2.2.1⟩

/-- Claim C6 witness: a concrete fresh sampling on the empty cache leaves
one entry, within the bound. -/
theorem claim6_witness :
    [("M_2", (⟨"M", [⟨5, 7⟩, ⟨5, 7⟩, ⟨5, 7⟩], 2⟩ : PathCache))].length ≤
      100 :=
  (claim6_path_cache_bound claim4WitnessGeom "M" 2 [] (by decide)
    (fun q hq => absurd hq (List.not_mem_nil q))).1
    [⟨5, 7⟩, ⟨5, 7⟩, ⟨5, 7⟩] _ rfl

/-- Claim C7: when the cached entry's pattern node was removed from its
hosting defs element (the liveness `querySelector` fails), the lookup is
treated as a cache miss, not an error: a fresh pattern is synthesized
under a new id (the fresh-name supply is consumed), its reference token —
not the stale one — is returned, and the stale entry is gone: the key is
bound to the fresh entry if it is bound at all. -/
theorem claim7_stale_entry_is_miss (key : PatternCacheKey) (d : ℕ)
    (st : EngineState) (e : PatternCacheEntry)
    (hnd : (st.cache.map Prod.fst).Nodup)
    (hget : mapGet st.cache (generateCacheKey key) = some e)
    (hdefs : e.defsElement = d)
    (hdom : (d, e.patternId) ∉ st.dom)
    (hurl : "url(#" ++ ("scribble-pattern-" ++ toString st.fresh) ++ ")" ≠
      e.patternUrl) :
    (getCachedPattern key (some d) (scribbleCreateFn (some d)) st).1 =
      "url(#" ++ ("scribble-pattern-" ++ toString st.fresh) ++ ")" ∧
    ((getCachedPattern key (some d) (scribbleCreateFn (some d)) st).2).fresh
      = st.fresh + 1 ∧
    mapGet ((getCachedPattern key (some d) (scribbleCreateFn (some d))
      st).2).cache (generateCacheKey key) ≠ some e := by
  have hred : getCachedPattern key (some d) (scribbleCreateFn (some d)) st =
      createAndInsert (generateCacheKey key) d (scribbleCreateFn (some d))
        ⟨mapDelete st.cache (generateCacheKey key), st.dom, st.now,
          st.fresh⟩ := by
    simp only [getCachedPattern]
    rw [hget]
    dsimp only
    rw [if_pos hdefs, if_neg hdom]
  have hspec := createAndInsert_spec (generateCacheKey key) d
    (scribbleCreateFn (some d))
    ⟨mapDelete st.cache (generateCacheKey key), st.dom, st.now, st.fresh⟩
    (mapDelete_nodup _ _ hnd)
  rw [hred]
  refine ⟨?_, ?_, ?_⟩
  · exact hspec.1
  · exact hspec.2.1
  · intro heq
    refine hurl ?_
    rw [hspec.2.2 e heq]
    rfl

/-- Claim C7 witness: a concrete stale entry (its node absent from the
document) is discarded and a fresh token is returned. -/
theorem claim7_witness :
    (getCachedPattern ⟨"scribble", "red", none, none, none, none, none,
        none⟩ (some 5) (scribbleCreateFn (some 5))
      ⟨[("scribble|red", ⟨"url(#p0)", "p0", 5, 0⟩)], [], 0, 0⟩).1 =
      "url(#scribble-pattern-0)" :=
  (claim7_stale_entry_is_miss ⟨"scribble", "red", none, none, none, none,
      none, none⟩ 5 ⟨[("scribble|red", ⟨"url(#p0)", "p0", 5, 0⟩)], [], 0, 0⟩
    ⟨"url(#p0)", "p0", 5, 0⟩ (by decide) (by decide) (by decide)
    (by decide) (by decide)).1

/-- Claim C10: a pattern-cache hit additionally requires that the entry's
stored hosting defs element be reference-identical to the current
request's defs node: for the same key against a different defs container,
the cached token is not returned — a fresh pattern is synthesized (the
fresh-name supply is consumed) and the binding for that key, if it
survives the opportunistic cleanup, is the fresh entry whose
`defsElement` is the new container. -/
theorem claim10_defs_identity (key : PatternCacheKey) (d : ℕ)
    (st : EngineState) (e : PatternCacheEntry)
    (hnd : (st.cache.map Prod.fst).Nodup)
    (hget : mapGet st.cache (generateCacheKey key) = some e)
    (hdefs : e.defsElement ≠ d)
    (hurl : "url(#" ++ ("scribble-pattern-" ++ toString st.fresh) ++ ")" ≠
      e.patternUrl) :
    (getCachedPattern key (some d) (scribbleCreateFn (some d)) st).1 =
      "url(#" ++ ("scribble-pattern-" ++ toString st.fresh) ++ ")" ∧
    (getCachedPattern key (some d) (scribbleCreateFn (some d)) st).1 ≠
      e.patternUrl ∧
    ((getCachedPattern key (some d) (scribbleCreateFn (some d)) st).2).fresh
      = st.fresh + 1 ∧
    (∀ e2, mapGet ((getCachedPattern key (some d) (scribbleCreateFn (some d))
        st).2).cache (generateCacheKey key) = some e2 →
      e2 = ⟨"url(#" ++ ("scribble-pattern-" ++ toString st.fresh) ++ ")",
        stripUrl ("url(#" ++ ("scribble-pattern-" ++ toString st.fresh) ++
          ")"), d, st.now⟩) := by
  have hred : getCachedPattern key (some d) (scribbleCreateFn (some d)) st =
      createAndInsert (generateCacheKey key) d (scribbleCreateFn (some d))
        st := by
    simp only [getCachedPattern]
    rw [hget]
    dsimp only
    rw [if_neg hdefs]
  have hspec := createAndInsert_spec (generateCacheKey key) d
    (scribbleCreateFn (some d)) st hnd
  rw [hred]
  refine ⟨?_, ?_, ?_, ?_⟩
  · exact hspec.1
  · rw [hspec.1]
    exact hurl
  · exact hspec.2.1
  · exact hspec.2.2

/-- Claim C10 witness: the same key requested against defs container 9
instead of 5 yields a fresh token, not the cached one. -/
theorem claim10_witness :
    (getCachedPattern ⟨"scribble", "red", none, none, none, none, none,
        none⟩ (some 9) (scribbleCreateFn (some 9))
      ⟨[("scribble|red", ⟨"url(#p0)", "p0", 5, 0⟩)], [], 0, 0⟩).1 =
      "url(#scribble-pattern-0)" :=
  (claim10_defs_identity ⟨"scribble", "red", none, none, none, none, none,
      none⟩ 9 ⟨[("scribble|red", ⟨"url(#p0)", "p0", 5, 0⟩)], [], 0, 0⟩
    ⟨"url(#p0)", "p0", 5, 0⟩ (by decide) (by decide) (by decide)
    (by decide)).1
